import Mathlib

/-!
A shallow embedding of the genetic seating-plan optimiser (`src/main.rs` of
charypar/seating-plan) together with proofs about its specification.

Modelling conventions:
- `f64` score arithmetic is modelled exactly over `ℚ`; the program only adds,
  subtracts, multiplies, divides, squares and floors scores.
- Every random draw is an explicit oracle argument.  Rust's
  `rng.gen_range(lo, hi)` maps a raw draw `r` to `lo + r % (hi - lo)` and,
  like the library function, requires `lo < hi`; a call that would abort the
  process is modelled as `none`.  `rng.gen_bool(p)` coin flips are modelled
  as explicit `Bool` oracle values.
- A `Histogram` is represented by the sequence of items inserted into it:
  `counts.get(v)` is `List.count v`, `total` is `List.length`, and the key
  set `counts.keys()` (insertion from empty guarantees every stored count is
  positive) is `List.dedup`.
- Aborts (out-of-range indexing and slicing, invalid uniform distributions,
  selection of a parent from an empty survivor list) make the modelled
  operation return `none`.
-/

/-- Rust struct `Badger`: one individual record with five categorical
attributes. -/
structure Badger where
  name : String
  gender : String
  discipline : String
  seniority : String
  client : String
  team : String
deriving DecidableEq

/-- Rust `fn mutate`: pick one index uniformly in `[0, individual.len())`,
draw one value from the uniform distribution on `[lo, hi)` (the call site
passes `Uniform::new(0, ngroups)`), and return a copy of the chromosome with
that index overwritten.  `rIdx` and `rVal` are the raw random draws.  An
empty chromosome or an empty value range aborts (`gen_range` and
`Uniform::new` both require a nonempty half-open range). -/
def mutate (individual : List ℕ) (lo hi rIdx rVal : ℕ) : Option (List ℕ) :=
  if individual.length = 0 ∨ hi ≤ lo then none
  else
    let idx := rIdx % individual.length
    let value := lo + rVal % (hi - lo)
    some (individual.set idx value)

/-- Rust `fn cross_over`: pick one split point uniformly in
`[0, mother.len())` and return `mother[0..k] ++ father[k..]`.  An empty
mother aborts (`gen_range(0, 0)`), and a father shorter than the split point
aborts (slice `father[k..]` out of range). -/
def cross_over (mother father : List ℕ) (r : ℕ) : Option (List ℕ) :=
  if mother.length = 0 then none
  else
    let crossover_point := r % mother.length
    if father.length < crossover_point then none
    else some (mother.take crossover_point ++ father.drop crossover_point)

/-- Rust `struct Histogram<T>`, represented by its insertion sequence. -/
abbrev Histogram (T : Type) := List T

/-- Rust `Histogram::insert`: record one more occurrence of `item`. -/
def Histogram.insert {T : Type} (h : Histogram T) (item : T) : Histogram T :=
  h ++ [item]

/-- Rust `Histogram::diff`: if the numbers of distinct values differ, return
the absolute difference of those numbers; otherwise sum, over the keys of
`self`, the squared difference of the two scores.  Note that in the source
both scores are divided by `self.total` (`other`'s count is *not* divided by
`other`'s own total), and a key absent from `other` scores `0.0`
(`unwrap_or(0.0)`). -/
def Histogram.diff {T : Type} [DecidableEq T] (self other : Histogram T) : ℚ :=
  let d : ℤ := |(List.dedup self).length - ((List.dedup other).length : ℤ)|
  if 0 < d then (d : ℚ)
  else
    ((List.dedup self).map (fun key =>
      let selfScore : ℚ := (List.count key self : ℚ) / (self.length : ℚ)
      let otherScore : ℚ := (List.count key other : ℚ) / (self.length : ℚ)
      (selfScore - otherScore) ^ 2)).sum

/-- The formula of claim C1 for the proportional branch of
`Histogram::diff`, following the spec's words: each histogram's proportion
is that value's count divided by the histogram's *own* total, a value absent
from the right histogram counting as proportion `0`. -/
def specDiffC1 {T : Type} [DecidableEq T] (self other : Histogram T) : ℚ :=
  ((List.dedup self).map (fun key =>
    ((List.count key self : ℚ) / (self.length : ℚ) -
      (List.count key other : ℚ) / (other.length : ℚ)) ^ 2)).sum

/-- The amended formula of claim C1: as in `specDiffC1` except that the right
histogram's count is divided by the *left* histogram's total, exactly as the
source does. -/
def specDiffC1Amended {T : Type} [DecidableEq T] (self other : Histogram T) : ℚ :=
  ((List.dedup self).map (fun key =>
    ((List.count key self : ℚ) / (self.length : ℚ) -
      (List.count key other : ℚ) / (self.length : ℚ)) ^ 2)).sum

/-- Rust `struct Profile`: one histogram per tracked attribute plus an item
count (an `f64` in the source, hence `ℚ` here). -/
structure Profile where
  genders : Histogram String
  disciplines : Histogram String
  seniorities : Histogram String
  clients : Histogram String
  teams : Histogram String
  count : ℚ

/-- Rust `Profile::new`: all histograms empty, count `0.0`. -/
def Profile.new : Profile :=
  ⟨[], [], [], [], [], 0⟩

/-- Rust `Profile::insert`: bump the count and insert each of the five
attribute values into its histogram. -/
def Profile.insert (p : Profile) (b : Badger) : Profile :=
  { genders := Histogram.insert p.genders b.gender
    disciplines := Histogram.insert p.disciplines b.discipline
    seniorities := Histogram.insert p.seniorities b.seniority
    clients := Histogram.insert p.clients b.client
    teams := Histogram.insert p.teams b.team
    count := p.count + 1 }

/-- The profile obtained by inserting a list of badgers, in order, into
`Profile::new` — how `fn fitness` builds each group's profile and how `main`
builds the ideal profile. -/
def profileOf (bs : List Badger) : Profile :=
  bs.foldl Profile.insert Profile.new

/-- The members of group `g` under assignment `solution`: the badgers at the
positions assigned to `g`, in index order.  This is the insertion sequence of
the `profiles` hash-map entry for key `g` in `fn fitness`. -/
def groupMembers (solution : List ℕ) (badgers : List Badger) (g : ℕ) : List Badger :=
  ((solution.zip badgers).filter (fun p => p.1 == g)).map Prod.snd

/-- The per-group score inside `fn fitness`:
`10*size + 6*gender + 3*discipline + seniority + 2 + client + team`. -/
def groupScore (ideal group : Profile) : ℚ :=
  let size := |ideal.count - group.count|
  10 * size + 6 * Histogram.diff ideal.genders group.genders +
    3 * Histogram.diff ideal.disciplines group.disciplines +
    Histogram.diff ideal.seniorities group.seniorities + 2 +
    Histogram.diff ideal.clients group.clients +
    Histogram.diff ideal.teams group.teams

/-- Rust `fn fitness`: partition the records by assigned group id into a
hash map of profiles — the map has one entry per group id occurring in
`solution`, holding the profile of exactly that group's members — and sum
the per-group scores over the map's values.  The sum over the unordered map
values is written as the sum over the distinct occurring ids. -/
def fitness (solution : List ℕ) (badgers : List Badger) (ideal : Profile) : ℚ :=
  ((List.dedup solution).map (fun g =>
    groupScore ideal (profileOf (groupMembers solution badgers g)))).sum

/-- The group count `fn main` passes to `Generation::new` (the literal `9`). -/
def mainNgroups : ℕ := 9

/-- The ideal profile built by `fn main`: every badger inserted, then
`ideal.count` overwritten with `badgers.len() as f64 / 9.0`. -/
def mainIdeal (badgers : List Badger) : Profile :=
  { profileOf badgers with count := (badgers.length : ℚ) / (mainNgroups : ℚ) }

/-- The formula of claim C4 for Strategy A, following the spec's words:
for every group the chromosome's partition produces, score
`10*|idealSize - groupSize| + 6*diff(gender) + 3*diff(discipline)
 + diff(seniority) + 2 + diff(client) + diff(team)` with
`idealSize = totalRecords / groupCount`, and total fitness the sum of the
per-group scores. -/
def specFitnessC4 (solution : List ℕ) (badgers : List Badger) : ℚ :=
  ((List.dedup solution).map (fun g =>
    let grp := groupMembers solution badgers g
    10 * |(badgers.length : ℚ) / (mainNgroups : ℚ) - (grp.length : ℚ)| +
      6 * Histogram.diff (badgers.map Badger.gender) (grp.map Badger.gender) +
      3 * Histogram.diff (badgers.map Badger.discipline) (grp.map Badger.discipline) +
      Histogram.diff (badgers.map Badger.seniority) (grp.map Badger.seniority) + 2 +
      Histogram.diff (badgers.map Badger.client) (grp.map Badger.client) +
      Histogram.diff (badgers.map Badger.team) (grp.map Badger.team))).sum

/-- The random draws consumed by one iteration of the breeding loop in
`Generation::next_gen`, in consumption order: the mother index draw, the
crossover coin, the father index draw, the split-point draw, the mutation
coin, and the two draws of `fn mutate`. -/
structure SlotRand where
  motherDraw : ℕ
  crossCoin : Bool
  fatherDraw : ℕ
  pointDraw : ℕ
  mutCoin : Bool
  mutIdxDraw : ℕ
  mutValDraw : ℕ

/-- Rust `struct Generation`: the population, the group count, the three
genetic rates and the captured fitness closure. -/
structure Generation where
  population : List (List ℕ)
  ngroups : ℕ
  crossover_rate : ℚ
  mutation_rate : ℚ
  survival_rate : ℚ
  fitness : List ℕ → ℚ

/-- Rust `Generation::new`: draw `population_size` chromosomes of
`nbadgers` genes each from `Uniform::new(1, ngroups)` — which aborts unless
`1 < ngroups` — and set the default rates `0.85`, `0.15`, `0.2`.  The raw
gene draw for chromosome `i`, position `j` is `r i j`. -/
def Generation.new (population_size ngroups nbadgers : ℕ) (fitness : List ℕ → ℚ)
    (r : ℕ → ℕ → ℕ) : Option Generation :=
  if ngroups ≤ 1 then none
  else
    some
      { population :=
          (List.range population_size).map (fun i =>
            (List.range nbadgers).map (fun j => 1 + r i j % (ngroups - 1)))
        ngroups := ngroups
        crossover_rate := 85 / 100
        mutation_rate := 15 / 100
        survival_rate := 2 / 10
        fitness := fitness }

/-- Rust `Generation::fittest`: sort a copy of the population by fitness,
ascending (`partial_cmp`, lower scores first; the stable sort is modelled by
`List.insertionSort`, which is also stable), and take the slice
`[0 .. floor(len * survival_rate)]`; the slice aborts if the survivor count
exceeds the population size.  The `f64` to `usize` cast saturates at `0`,
which `Int.toNat` mirrors. -/
def Generation.fittest (g : Generation) : Option (List (List ℕ)) :=
  let sorted := List.insertionSort (fun a b => g.fitness a ≤ g.fitness b) g.population
  let survivor_count := (Int.floor ((g.population.length : ℚ) * g.survival_rate)).toNat
  if survivor_count ≤ sorted.length then some (sorted.take survivor_count) else none

/-- One iteration of the breeding loop in `Generation::next_gen`: pick a
random mother among the survivors (aborting on an empty survivor list, as
`gen_range(0, 0)` does); with the crossover coin, pick a random father and
cross over, otherwise copy the mother; with the mutation coin, mutate the
slot over the value range `[0, ngroups)`. -/
def breedSlot (fittest : List (List ℕ)) (ngroups : ℕ) (sr : SlotRand) : Option (List ℕ) :=
  if fittest.length = 0 then none
  else
    let mother := fittest.getD (sr.motherDraw % fittest.length) []
    let afterCross : Option (List ℕ) :=
      if sr.crossCoin then
        cross_over mother (fittest.getD (sr.fatherDraw % fittest.length) []) sr.pointDraw
      else some mother
    afterCross.bind (fun slot =>
      if sr.mutCoin then mutate slot 0 ngroups sr.mutIdxDraw sr.mutValDraw
      else some slot)

/-- The breeding loop of `Generation::next_gen`, one `breedSlot` per output
slot index. -/
def breedAll (fittest : List (List ℕ)) (ngroups : ℕ) (r : ℕ → SlotRand) :
    List ℕ → Option (List (List ℕ))
  | [] => some []
  | i :: rest =>
    (breedSlot fittest ngroups (r i)).bind (fun child =>
      (breedAll fittest ngroups r rest).map (fun siblings => child :: siblings))

/-- Rust `Generation::next_gen`: compute the survivors, breed one new
chromosome per slot of the old population's size, and replace the population
wholesale.  `r i` gives the random draws consumed by slot `i`. -/
def Generation.next_gen (g : Generation) (r : ℕ → SlotRand) : Option Generation :=
  g.fittest.bind (fun fittest =>
    (breedAll fittest g.ngroups r (List.range g.population.length)).map
      (fun population => { g with population := population }))

/-- A concrete fitness function used to instantiate theorems. -/
def f0 : List ℕ → ℚ := fun _ => 0

/-- A concrete gene-draw oracle used to instantiate theorems. -/
def r0 : ℕ → ℕ → ℕ := fun _ _ => 0

/-- A concrete slot-draw oracle used to instantiate theorems. -/
def rs0 : ℕ → SlotRand := fun _ => ⟨0, false, 0, 0, false, 0, 0⟩

/-- A concrete one-chromosome generation whose survival rate floors to zero
survivors. -/
def g2 : Generation := ⟨[[1]], 2, 1 / 2, 1 / 2, 2 / 10, f0⟩

/-- A concrete five-chromosome generation with survival rate `1/2`. -/
def g5 : Generation :=
  ⟨[[0], [1], [2], [3], [4]], 2, 1 / 2, 1 / 2, 1 / 2, fun c => ((c.headD 0 : ℕ) : ℚ)⟩

/-- The generation produced by `Generation.new 1 3 2 f0 r0`. -/
def g7 : Generation := ⟨[[1, 1]], 3, 85 / 100, 15 / 100, 2 / 10, f0⟩

/-- A concrete badger used to instantiate theorems. -/
def b0 : Badger := ⟨"a", "f", "dev", "senior", "acme", "t1"⟩

/-- Claim C3 is false on the code: for parents of length 1 the split point is
always `0`, so the child is the *father*'s sole gene, not the mother's — here
`cross_over [5] [7]` yields `[7]`, not `[5]`. -/
theorem c3_counterexample :
    cross_over [5] [7] 0 = some [7] ∧ cross_over [5] [7] 0 ≠ some [5] := by
  constructor
  · decide
  · decide

/-- Claim C3 (amended): for parents of length 1 the crossover split point can
only be `0`, and crossover deterministically returns, without error, a child
equal to the father's sole gene. -/
theorem c3_theorem (m f r : ℕ) : cross_over [m] [f] r = some [f] := by
  unfold cross_over
  simp [Nat.mod_one]

/-- Claim C9: comparing a non-empty histogram with itself gives distance
zero. -/
theorem c9_theorem {T : Type} [DecidableEq T] (h : Histogram T) (_hne : h ≠ []) :
    Histogram.diff h h = 0 := by
  unfold Histogram.diff
  simp only [sub_self, abs_zero, lt_self_iff_false, if_false]
  apply List.sum_eq_zero
  intro x hx
  obtain ⟨key, _, hkey⟩ := List.mem_map.mp hx
  rw [← hkey]
  simp

/-- Claim C9 witness: the singleton histogram `[0]` is non-empty and has
self-distance zero. -/
theorem c9_witness :
    ([0] : Histogram ℕ) ≠ [] ∧ Histogram.diff ([0] : Histogram ℕ) [0] = 0 :=
  ⟨by decide, c9_theorem [0] (by decide)⟩

/-- Claim C1 is false on the code: `[0]` and `[0, 0]` have the same number of
distinct values (one each), yet `Histogram::diff` returns
`(1/1 - 2/1)^2 = 1` — the right count is divided by the left total — while
the claim's formula gives `(1/1 - 2/2)^2 = 0`. -/
theorem c1_counterexample :
    ([0] : Histogram ℕ).dedup.length = ([0, 0] : Histogram ℕ).dedup.length ∧
      Histogram.diff ([0] : Histogram ℕ) [0, 0] ≠ specDiffC1 ([0] : Histogram ℕ) [0, 0] := by
  have hd1 : List.dedup ([0] : List ℕ) = [0] := by decide
  have hd2 : List.dedup ([0, 0] : List ℕ) = [0] := by decide
  have hc1 : List.count 0 ([0] : List ℕ) = 1 := by decide
  have hc2 : List.count 0 ([0, 0] : List ℕ) = 2 := by decide
  constructor
  · decide
  · have hL : Histogram.diff ([0] : Histogram ℕ) [0, 0] = 1 := by
      unfold Histogram.diff
      simp only [hd1, hd2, hc1, hc2]
      norm_num
    have hR : specDiffC1 ([0] : Histogram ℕ) [0, 0] = 0 := by
      unfold specDiffC1
      simp only [hd1, hc1, hc2]
      norm_num
    rw [hL, hR]
    norm_num

/-- Claim C1 (amended): when the two histograms have the same number of
distinct values, `Histogram::diff` equals the sum, over the values of the
left histogram, of the squared difference between the left proportion
(count over left total) and the right count divided by the *left*
histogram's total (not the right's own total), a value absent from the right
histogram counting as `0`. -/
theorem c1_theorem {T : Type} [DecidableEq T] (self other : Histogram T)
    (h : (List.dedup self).length = (List.dedup other).length) :
    Histogram.diff self other = specDiffC1Amended self other := by
  unfold Histogram.diff specDiffC1Amended
  simp [h]

/-- Claim C1 witness: the amended formula agrees with the code on the
concrete pair `[0]`, `[0, 0]`. -/
theorem c1_witness :
    ([0] : Histogram ℕ).dedup.length = ([0, 0] : Histogram ℕ).dedup.length ∧
      Histogram.diff ([0] : Histogram ℕ) [0, 0] =
        specDiffC1Amended ([0] : Histogram ℕ) [0, 0] :=
  ⟨by decide, c1_theorem [0] [0, 0] (by decide)⟩

/-- Claim C6: for a non-empty chromosome and a non-empty value range,
`mutate` succeeds and returns a chromosome obtained by overwriting exactly
one position with a value inside the range; the length is unchanged and
every other position is untouched (the original is never modified — the
model returns a fresh list, as the Rust clones before writing). -/
theorem c6_theorem (individual : List ℕ) (lo hi rIdx rVal : ℕ)
    (hne : individual ≠ []) (hlt : lo < hi) :
    ∃ i v, i < individual.length ∧ lo ≤ v ∧ v < hi ∧
      mutate individual lo hi rIdx rVal = some (individual.set i v) ∧
      (individual.set i v).length = individual.length ∧
      ∀ j : ℕ, j ≠ i → (individual.set i v)[j]? = individual[j]? := by
  have hlen : 0 < individual.length := List.length_pos.mpr hne
  refine ⟨rIdx % individual.length, lo + rVal % (hi - lo),
    Nat.mod_lt _ hlen, Nat.le_add_right _ _, ?_, ?_, List.length_set .., ?_⟩
  · have hm := Nat.mod_lt rVal (show 0 < hi - lo by omega)
    omega
  · unfold mutate
    rw [if_neg (by push_neg; exact ⟨by omega, by omega⟩)]
  · intro j hj
    exact List.getElem?_set_ne (Ne.symm hj)

/-- Claim C6 witness: mutating `[1, 2]` over the range `[0, 3)` with draws
`5` and `7`. -/
theorem c6_witness :
    ([1, 2] : List ℕ) ≠ [] ∧ 0 < 3 ∧
      ∃ i v, i < ([1, 2] : List ℕ).length ∧ 0 ≤ v ∧ v < 3 ∧
        mutate [1, 2] 0 3 5 7 = some (([1, 2] : List ℕ).set i v) ∧
        (([1, 2] : List ℕ).set i v).length = ([1, 2] : List ℕ).length ∧
        ∀ j : ℕ, j ≠ i → (([1, 2] : List ℕ).set i v)[j]? = ([1, 2] : List ℕ)[j]? :=
  ⟨by decide, by decide, c6_theorem [1, 2] 0 3 5 7 (by decide) (by decide)⟩

/-- Claim C8: every chromosome produced by any operator has the record
count as its length — the initial population's chromosomes have `nbadgers`
genes, a successful crossover of equal-length parents preserves the common
length, and a successful mutation preserves the length. -/
theorem c8_theorem :
    (∀ ps ng nb f r g, Generation.new ps ng nb f r = some g →
        ∀ c ∈ g.population, c.length = nb) ∧
    (∀ (mother father : List ℕ) (rp : ℕ) (c : List ℕ),
        mother.length = father.length →
        cross_over mother father rp = some c → c.length = mother.length) ∧
    (∀ (ind : List ℕ) (lo hi rIdx rVal : ℕ) (c : List ℕ),
        mutate ind lo hi rIdx rVal = some c → c.length = ind.length) := by
  refine ⟨?_, ?_, ?_⟩
  · intro ps ng nb f r g hg c hc
    unfold Generation.new at hg
    by_cases h : ng ≤ 1
    · rw [if_pos h] at hg
      exact absurd hg (by simp)
    · rw [if_neg h] at hg
      obtain rfl := Option.some.inj hg
      simp only [List.mem_map] at hc
      obtain ⟨i, _, rfl⟩ := hc
      simp
  · intro mother father rp c hlen hc
    unfold cross_over at hc
    by_cases h : mother.length = 0
    · rw [if_pos h] at hc
      exact absurd hc (by simp)
    · rw [if_neg h] at hc
      have hk : rp % mother.length < mother.length := Nat.mod_lt _ (by omega)
      rw [if_neg (by omega)] at hc
      obtain rfl := Option.some.inj hc
      simp only [List.length_append, List.length_take, List.length_drop]
      omega
  · intro ind lo hi rIdx rVal c hc
    unfold mutate at hc
    by_cases h : ind.length = 0 ∨ hi ≤ lo
    · rw [if_pos h] at hc
      exact absurd hc (by simp)
    · rw [if_neg h] at hc
      obtain rfl := Option.some.inj hc
      simp

/-- Claim C8 witness: the three length facts at concrete inputs — the
initial population of `Generation.new 1 3 2`, the crossover
`cross_over [1, 2] [3, 4]` at split draw `1`, and the mutation
`mutate [1, 2] 0 3 0 0`. -/
theorem c8_witness :
    ([1, 1] : List ℕ).length = 2 ∧
      ([1, 4] : List ℕ).length = ([1, 2] : List ℕ).length ∧
      ([0, 2] : List ℕ).length = ([1, 2] : List ℕ).length :=
  ⟨c8_theorem.1 1 3 2 f0 r0 g7 rfl [1, 1] (by decide),
   c8_theorem.2.1 [1, 2] [3, 4] 1 [1, 4] (by decide) (by decide),
   c8_theorem.2.2 [1, 2] 0 3 0 0 [0, 2] (by decide)⟩

/-- Inserting a list of badgers into an arbitrary profile appends each
attribute sequence and adds the list's length to the count. -/
theorem foldl_profile_insert (bs : List Badger) (acc : Profile) :
    bs.foldl Profile.insert acc =
      ⟨acc.genders ++ bs.map Badger.gender, acc.disciplines ++ bs.map Badger.discipline,
       acc.seniorities ++ bs.map Badger.seniority, acc.clients ++ bs.map Badger.client,
       acc.teams ++ bs.map Badger.team, acc.count + bs.length⟩ := by
  induction bs generalizing acc with
  | nil => simp
  | cons b bs ih =>
    simp only [List.foldl_cons, ih, Profile.insert, Histogram.insert, List.map_cons,
      List.length_cons, Profile.mk.injEq]
    refine ⟨?_, ?_, ?_, ?_, ?_, ?_⟩
    · simp
    · simp
    · simp
    · simp
    · simp
    · push_cast
      ring

/-- The profile of a member list, componentwise. -/
theorem profileOf_eq (bs : List Badger) :
    profileOf bs =
      ⟨bs.map Badger.gender, bs.map Badger.discipline, bs.map Badger.seniority,
       bs.map Badger.client, bs.map Badger.team, (bs.length : ℚ)⟩ := by
  unfold profileOf
  rw [foldl_profile_insert]
  unfold Profile.new
  simp

/-- Claim C4: with the ideal profile `fn main` builds (whose count is
`totalRecords / groupCount` for the group count `9` passed to
`Generation::new`), the fitness of a chromosome is exactly the sum, over the
groups its partition produces, of `10*|idealSize - groupSize| +
6*diff(gender) + 3*diff(discipline) + diff(seniority) + 2 + diff(client) +
diff(team)`. -/
theorem c4_theorem (solution : List ℕ) (badgers : List Badger) :
    fitness solution badgers (mainIdeal badgers) = specFitnessC4 solution badgers := by
  unfold fitness specFitnessC4
  have h : ∀ g : ℕ,
      groupScore (mainIdeal badgers) (profileOf (groupMembers solution badgers g)) =
        (fun g =>
          let grp := groupMembers solution badgers g
          10 * |(badgers.length : ℚ) / (mainNgroups : ℚ) - (grp.length : ℚ)| +
            6 * Histogram.diff (badgers.map Badger.gender) (grp.map Badger.gender) +
            3 * Histogram.diff (badgers.map Badger.discipline) (grp.map Badger.discipline) +
            Histogram.diff (badgers.map Badger.seniority) (grp.map Badger.seniority) + 2 +
            Histogram.diff (badgers.map Badger.client) (grp.map Badger.client) +
            Histogram.diff (badgers.map Badger.team) (grp.map Badger.team)) g := by
    intro g
    simp only [groupScore, mainIdeal, profileOf_eq]
  rw [List.map_congr_left (fun g _ => h g)]

/-- Claim C10: the fitness total ranges over exactly the group ids occurring
in the chromosome — it equals the sum over the finite set of occurring ids
of the per-group score, an id belongs to that set precisely when some record
is assigned to it, and an id with no records assigned has an empty member
list, hence contributes no term (in particular no `10 * idealSize` size
penalty for configured-but-empty groups). -/
theorem c10_theorem (solution : List ℕ) (badgers : List Badger) (ideal : Profile) :
    (fitness solution badgers ideal =
        ∑ g ∈ solution.toFinset,
          groupScore ideal (profileOf (groupMembers solution badgers g))) ∧
      (∀ g : ℕ, g ∈ solution.toFinset ↔ g ∈ solution) ∧
      (∀ g : ℕ, g ∉ solution → groupMembers solution badgers g = []) := by
  refine ⟨?_, fun g => List.mem_toFinset, fun g hg => ?_⟩
  · have hset : solution.toFinset = (List.dedup solution).toFinset := by
      ext a
      simp [List.mem_toFinset, List.mem_dedup]
    rw [hset,
      List.sum_toFinset _ (List.nodup_dedup solution)]
    rfl
  · unfold groupMembers
    rw [List.map_eq_nil_iff, List.filter_eq_nil_iff]
    intro p hp
    obtain ⟨a, b⟩ := p
    have := (List.of_mem_zip hp).1
    simp only [beq_iff_eq]
    intro hab
    exact hg (hab ▸ this)

/-- Claim C10 witness: group id `3` occurs nowhere in `[1, 2]`, and its
member list under that assignment is empty. -/
theorem c10_witness :
    (3 : ℕ) ∉ ([1, 2] : List ℕ) ∧ groupMembers [1, 2] [b0, b0] 3 = [] :=
  ⟨by decide, (c10_theorem [1, 2] [b0, b0] Profile.new).2.2 3 (by decide)⟩

/-- Claim C7: every gene of every chromosome of the initial population lies
in `[1, groupCount)` (drawn from `Uniform::new(1, ngroups)`), whereas the
replacement value written by mutation in `next_gen` is drawn from
`Uniform::new(0, ngroups)`, i.e. lies in `[0, groupCount)` — and the
mutation can actually write the gene `0`, which the initial domain never
contains, so the two domains are inconsistent. -/
theorem c7_theorem :
    (∀ ps ng nb f r g, Generation.new ps ng nb f r = some g →
        ∀ c ∈ g.population, ∀ v ∈ c, 1 ≤ v ∧ v < ng) ∧
    (∀ (slot : List ℕ) (ng rIdx rVal : ℕ), slot ≠ [] → 0 < ng →
        mutate slot 0 ng rIdx rVal =
            some (slot.set (rIdx % slot.length) (rVal % ng)) ∧
          rVal % ng < ng) ∧
    (∀ ng : ℕ, 1 < ng →
        ∃ (slot : List ℕ) (rIdx rVal : ℕ) (c : List ℕ),
          mutate slot 0 ng rIdx rVal = some c ∧ ∃ v ∈ c, ¬1 ≤ v) := by
  refine ⟨?_, ?_, ?_⟩
  · intro ps ng nb f r g hg c hc v hv
    unfold Generation.new at hg
    by_cases h : ng ≤ 1
    · rw [if_pos h] at hg
      exact absurd hg (by simp)
    · rw [if_neg h] at hg
      obtain rfl := Option.some.inj hg
      simp only [List.mem_map] at hc
      obtain ⟨i, _, rfl⟩ := hc
      simp only [List.mem_map] at hv
      obtain ⟨j, _, rfl⟩ := hv
      have := Nat.mod_lt (r i j) (show 0 < ng - 1 by omega)
      omega
  · intro slot ng rIdx rVal hne hng
    have hlen : 0 < slot.length := List.length_pos.mpr hne
    constructor
    · unfold mutate
      rw [if_neg (by push_neg; exact ⟨by omega, by omega⟩)]
      simp
    · exact Nat.mod_lt _ hng
  · intro ng hng
    refine ⟨[1], 0, 0, [0], ?_, 0, by simp, by omega⟩
    unfold mutate
    rw [if_neg (by push_neg; exact ⟨by simp, by omega⟩)]
    simp [Nat.mod_one]

/-- Claim C7 witness: the initial gene `1` of `Generation.new 1 3 2` lies in
`[1, 3)`, the mutation `mutate [5] 0 3 4 7` writes `7 % 3 = 1 < 3`, and for
`ngroups = 3` mutation can produce a gene outside `[1, 3)`. -/
theorem c7_witness :
    (1 ≤ 1 ∧ 1 < 3) ∧
      (mutate [5] 0 3 4 7 = some (([5] : List ℕ).set (4 % ([5] : List ℕ).length) (7 % 3)) ∧
        7 % 3 < 3) ∧
      ∃ (slot : List ℕ) (rIdx rVal : ℕ) (c : List ℕ),
        mutate slot 0 3 rIdx rVal = some c ∧ ∃ v ∈ c, ¬1 ≤ v :=
  ⟨c7_theorem.1 1 3 2 f0 r0 g7 rfl [1, 1] (by decide) 1 (by decide),
   c7_theorem.2.1 [5] 3 4 7 (by decide) (by decide),
   c7_theorem.2.2 3 (by decide)⟩

/-- Claim C2 is false on the code: constructing a `Generation` with the
invalid population size `0` (group count `2`, one record) succeeds — no
configuration validation happens at construction time. -/
theorem c2_counterexample :
    (Generation.new 0 2 1 f0 r0).isSome = true := by
  rfl

/-- Claim C2 (amended): construction fails only when the group count is at
most `1` (the precondition of the uniform gene distribution); for any group
count above `1` construction succeeds regardless of population size or the
survival rate, and a configuration whose survivor count
`floor(populationSize * survivalRate)` is zero fails only later, inside
`next_gen`'s breeding step over the empty survivor list. -/
theorem c2_theorem :
    (∀ ps ng nb f r, ng ≤ 1 → Generation.new ps ng nb f r = none) ∧
    (∀ ps ng nb f r, 1 < ng → (Generation.new ps ng nb f r).isSome = true) ∧
    (∀ (g : Generation) (r : ℕ → SlotRand), g.population ≠ [] →
        (Int.floor ((g.population.length : ℚ) * g.survival_rate)).toNat = 0 →
        g.next_gen r = none) := by
  refine ⟨?_, ?_, ?_⟩
  · intro ps ng nb f r h
    unfold Generation.new
    rw [if_pos h]
  · intro ps ng nb f r h
    unfold Generation.new
    rw [if_neg (by omega)]
    rfl
  · intro g r hne hsc
    have hfit : g.fittest = some [] := by
      unfold Generation.fittest
      rw [hsc]
      simp
    unfold Generation.next_gen
    rw [hfit]
    obtain ⟨c, cs, hpop⟩ : ∃ c cs, g.population = c :: cs := by
      cases hpop : g.population with
      | nil => exact absurd hpop hne
      | cons c cs => exact ⟨c, cs, rfl⟩
    rw [hpop]
    simp only [Option.some_bind, List.length_cons, List.range_succ_eq_map]
    simp [breedAll, breedSlot]

/-- Claim C2 witness: group count `1` fails at construction, population size
`0` constructs successfully, and the one-chromosome generation `g2`, whose
survival rate `0.2` floors to zero survivors, fails in `next_gen`. -/
theorem c2_witness :
    ((1 : ℕ) ≤ 1 ∧ Generation.new 5 1 3 f0 r0 = none) ∧
      (1 < 2 ∧ (Generation.new 0 2 1 f0 r0).isSome = true) ∧
      (g2.population ≠ [] ∧
        (Int.floor ((g2.population.length : ℚ) * g2.survival_rate)).toNat = 0 ∧
        g2.next_gen rs0 = none) :=
  ⟨⟨le_refl 1, c2_theorem.1 5 1 3 f0 r0 (le_refl 1)⟩,
   ⟨by omega, c2_theorem.2.1 0 2 1 f0 r0 (by omega)⟩,
   ⟨by simp [g2], by norm_num [g2],
    c2_theorem.2.2 g2 rs0 (by simp [g2]) (by norm_num [g2])⟩⟩

/-- Claim C5: for any generation whose survival rate is a fraction in
`[0, 1]`, `fittest` succeeds and returns exactly
`floor(populationSize * survivalRate)` chromosomes, each drawn from the
population, ordered ascending by the generation's fitness function (lower
is better for the implemented strategy). -/
theorem c5_theorem (g : Generation) (_h0 : 0 ≤ g.survival_rate)
    (h1 : g.survival_rate ≤ 1) :
    ∃ l, g.fittest = some l ∧
      l.length = (Int.floor ((g.population.length : ℚ) * g.survival_rate)).toNat ∧
      (∀ c ∈ l, c ∈ g.population) ∧
      l.Pairwise (fun a b => g.fitness a ≤ g.fitness b) := by
  haveI hTot : IsTotal (List ℕ) (fun a b => g.fitness a ≤ g.fitness b) :=
    ⟨fun a b => le_total _ _⟩
  haveI hTrans : IsTrans (List ℕ) (fun a b => g.fitness a ≤ g.fitness b) :=
    ⟨fun _ _ _ hab hbc => le_trans hab hbc⟩
  have hsorted :=
    List.sorted_insertionSort (fun a b => g.fitness a ≤ g.fitness b) g.population
  have hperm :=
    List.perm_insertionSort (fun a b => g.fitness a ≤ g.fitness b) g.population
  have hlen :
      (List.insertionSort (fun a b => g.fitness a ≤ g.fitness b) g.population).length =
        g.population.length :=
    hperm.length_eq
  have hsc :
      (Int.floor ((g.population.length : ℚ) * g.survival_rate)).toNat ≤
        g.population.length := by
    have h2 : (g.population.length : ℚ) * g.survival_rate ≤ (g.population.length : ℚ) :=
      mul_le_of_le_one_right (by positivity) h1
    have h3 : Int.floor ((g.population.length : ℚ) * g.survival_rate) ≤
        (g.population.length : ℤ) := by
      calc Int.floor ((g.population.length : ℚ) * g.survival_rate) ≤
          Int.floor ((g.population.length : ℚ)) := Int.floor_le_floor h2
        _ = (g.population.length : ℤ) := Int.floor_natCast _
    omega
  refine ⟨(List.insertionSort (fun a b => g.fitness a ≤ g.fitness b) g.population).take
      ((Int.floor ((g.population.length : ℚ) * g.survival_rate)).toNat),
    ?_, ?_, ?_, ?_⟩
  · unfold Generation.fittest
    rw [if_pos (by rw [hlen]; exact hsc)]
  · rw [List.length_take, hlen]
    omega
  · intro c hc
    exact hperm.mem_iff.mp (List.mem_of_mem_take hc)
  · exact hsorted.sublist (List.take_sublist _ _)

/-- Claim C5 witness: the five-chromosome generation `g5` with survival rate
`1/2` yields a survivor list of the stated length, membership and order. -/
theorem c5_witness :
    0 ≤ g5.survival_rate ∧ g5.survival_rate ≤ 1 ∧
      ∃ l, g5.fittest = some l ∧
        l.length = (Int.floor ((g5.population.length : ℚ) * g5.survival_rate)).toNat ∧
        (∀ c ∈ l, c ∈ g5.population) ∧
        l.Pairwise (fun a b => g5.fitness a ≤ g5.fitness b) :=
  ⟨by norm_num [g5], by norm_num [g5],
   c5_theorem g5 (by norm_num [g5]) (by norm_num [g5])⟩
